import Mathlib

/-!
Verification of the discord-gdpr-counter aggregation core.

The Rust source (src/main.rs, src/file_operations.rs, src/errors.rs) is
shallowly embedded below.  File-system effects are modelled by passing the
already-enumerated directory entries (with the existence and parse outcome of
each JSON artifact) as explicit data; everything else is translated
function-for-function from the source.
-/

namespace DGCount

/-- JSON values as parsed by serde_json (`serde_json::Value`). -/
inductive Json where
  | null
  | bool (b : Bool)
  | num (n : Int)
  | str (s : String)
  | arr (elems : List Json)
  | obj (fields : List (String × Json))

/-- `Value::get(key)` on an object: the value bound to `key`, if any. -/
def Json.get : Json → String → Option Json
  | .obj fields, key => fields.lookup key
  | _, _ => none

/-- `Value::as_str()`: the string content when the value is a string. -/
def Json.asStr : Json → Option String
  | .str s => some s
  | _ => none

/-- `struct Channel` from main.rs. -/
structure Channel where
  name : String
  message_count : Nat
  deriving DecidableEq

/-- `enum Conversation` from main.rs. -/
inductive Conversation where
  | DmOrGc (name : String) (message_count : Nat)
  | Guild (name : String) (message_count : Nat) (channels : List Channel)
  deriving DecidableEq

/-- `Conversation::message_count()` from main.rs. -/
def Conversation.message_count : Conversation → Nat
  | .DmOrGc _ mc => mc
  | .Guild _ mc _ => mc

/-- `enum ConversationType` from main.rs (CLI filter values `dm` / `guild`). -/
inductive ConversationType where
  | Dm
  | Guild
  deriving DecidableEq

/-- A loaded id-to-name table (`HashMap<String, String>` in the source),
modelled as an association list; lookups go through `List.lookup`. -/
abbrev NameMap := List (String × String)

/-- One entry of the `messages/` directory listing, as the scanner sees it.
`channelFile`/`messagesFile`: `none` means the file does not exist,
`some none` means it exists but is unreadable or fails to parse,
`some (some v)` means it exists and parses to `v`. -/
structure DirEntry where
  isDir : Bool
  name : String
  channelFile : Option (Option Json)
  messagesFile : Option (Option (List Json))

/-- The scanner's accumulation state: the `conversations` vector and the
`guilds` map of `process_conversations`.  The Rust `HashMap` is modelled as
an association list in first-insertion order; its unspecified value-iteration
order is treated separately (see `runWithGuildOrder`). -/
structure ScanState where
  conversations : List Conversation
  guilds : List (String × Conversation)
  deriving DecidableEq

/-- `guilds.entry(guild_id).or_insert_with(empty guild)` followed by the
`*message_count += n; channels.push(..)` update, in one step. -/
def upsertGuild (gid gname cname : String) (cnt : Nat) :
    List (String × Conversation) → List (String × Conversation)
  | [] => [(gid, Conversation.Guild gname cnt [⟨cname, cnt⟩])]
  | (k, c) :: rest =>
    if k = gid then
      match c with
      | Conversation.Guild n mc chs =>
          (k, Conversation.Guild n (mc + cnt) (chs ++ [⟨cname, cnt⟩])) :: rest
      | c' => (k, c') :: rest
    else (k, c) :: upsertGuild gid gname cname cnt rest

/-- The body of the `for entry in entries` loop of `process_conversations`.
Mirrors main.rs lines 186-257: skip non-directories, skip directories missing
`messages.json` or `channel.json`, propagate a read/parse failure of either
file as an error, classify by presence of a `guild` field, and fold the unit
into the state. -/
def processEntry (cm gm : Option NameMap) (st : ScanState) (e : DirEntry) :
    Except String ScanState :=
  if e.isDir then
    match e.messagesFile, e.channelFile with
    | some mf, some cf =>
      match cf with
      | none => Except.error ("read channel.json of " ++ e.name)
      | some channelInfo =>
        match mf with
        | none => Except.error ("read messages.json of " ++ e.name)
        | some messages =>
          let cnt := messages.length
          match channelInfo.get "guild" with
          | some guildInfo =>
            let gid := ((guildInfo.get "id").bind Json.asStr).getD "Unknown"
            let gname := (gm.bind fun m => m.lookup gid).getD ("Guild " ++ gid)
            let cname := ((channelInfo.get "name").bind Json.asStr).getD e.name
            Except.ok { st with guilds := upsertGuild gid gname cname cnt st.guilds }
          | none =>
            let stripped := String.mk (e.name.data.dropWhile (· == 'c'))
            let convName :=
              (cm.bind fun m => m.lookup stripped).getD ("Conversation " ++ e.name)
            Except.ok
              { st with
                conversations :=
                  st.conversations ++ [Conversation.DmOrGc convName cnt] }
    | _, _ => Except.ok st
  else Except.ok st

/-- The scan loop of `process_conversations`: fold `processEntry` over the
directory listing, aborting on the first error. -/
def scanFold (cm gm : Option NameMap) :
    ScanState → List DirEntry → Except String ScanState
  | st, [] => Except.ok st
  | st, e :: es =>
    match processEntry cm gm st e with
    | Except.ok st' => scanFold cm gm st' es
    | Except.error err => Except.error err

/-- `process_conversations` (main.rs 166-265): scan, then
`conversations.extend(guilds.into_values())`.  The association list's
insertion order stands in for one possible `into_values()` order; the
order-independence questions quantify over permutations of it. -/
def process_conversations (cm gm : Option NameMap) (entries : List DirEntry) :
    Except String (List Conversation) :=
  match scanFold cm gm ⟨[], []⟩ entries with
  | Except.ok st => Except.ok (st.conversations ++ st.guilds.map Prod.snd)
  | Except.error e => Except.error e

/-- The filter predicate of `filter_and_sort_conversations` (main.rs 282-295):
minimum message count, then the optional conversation-type filter. -/
def matchesFilter (ctype : Option ConversationType) (minMessages : Nat)
    (c : Conversation) : Bool :=
  if c.message_count < minMessages then
    false
  else
    match ctype, c with
    | some ConversationType.Dm, Conversation.DmOrGc _ _ => true
    | some ConversationType.Guild, Conversation.Guild _ _ _ => true
    | some _, _ => false
    | none, _ => true

/-- Insertion step of a stable descending sort keyed by `key`: `a` goes in
front of the first element whose key is not greater than `key a`, so earlier
elements stay in front of later elements with an equal key. -/
def insertByKeyDesc (key : α → Nat) (a : α) : List α → List α
  | [] => [a]
  | b :: bs =>
    if key a < key b then b :: insertByKeyDesc key a bs else a :: b :: bs

/-- Stable descending sort keyed by `key`; the unique result of any stable
sort under the comparator `fun a b => (key b).cmp (key a)`, which is what
`Vec::sort_by` (a stable sort) computes in the source. -/
def sortByKeyDesc (key : α → Nat) : List α → List α
  | [] => []
  | a :: as => insertByKeyDesc key a (sortByKeyDesc key as)

/-- `filter_and_sort_conversations` (main.rs 274-307): filter, stable sort by
descending message count, then `truncate(limit)` when a limit is given. -/
def filter_and_sort_conversations (convs : List Conversation)
    (ctype : Option ConversationType) (minMessages : Nat) (limit : Option Nat) :
    List Conversation :=
  let filtered := convs.filter (matchesFilter ctype minMessages)
  let sorted := sortByKeyDesc Conversation.message_count filtered
  match limit with
  | some n => sorted.take n
  | none => sorted

/-- `load_mapping` (main.rs 155-164).  The file-system state of the index
file is passed explicitly: `none` = the path does not exist, `some (.error e)`
= it exists but opening or JSON-parsing fails with `e`, `some (.ok m)` = it
exists and parses to the table `m`. -/
def load_mapping (file : Option (Except String NameMap)) :
    Except String (Option NameMap) :=
  match file with
  | some r => r.map some
  | none => Except.ok none

/-- `load_mappings` (main.rs 143-153): load the channel-name table, then the
guild-name table, propagating the first error. -/
def load_mappings (cf gf : Option (Except String NameMap)) :
    Except String (Option NameMap × Option NameMap) :=
  match load_mapping cf with
  | Except.error e => Except.error e
  | Except.ok cm =>
    match load_mapping gf with
    | Except.error e => Except.error e
    | Except.ok gm => Except.ok (cm, gm)

/-- The channel re-sort done by `print_tree` (main.rs 75-76) before printing a
guild's channels: descending by message count.  (`sort_unstable_by` leaves tie
order unspecified; no claim depends on it, so the stable order stands in.) -/
def sortChannelsDesc (chs : List Channel) : List Channel :=
  sortByKeyDesc Channel.message_count chs

/-- `Conversation::print_tree` (main.rs 64-87) as the list of printed lines. -/
def renderConversation : Conversation → List String
  | Conversation.DmOrGc name mc => [name ++ " [" ++ toString mc ++ " messages]"]
  | Conversation.Guild name mc chs =>
    let sorted := sortChannelsDesc chs
    (name ++ " [" ++ toString mc ++ " messages]") ::
      (sorted.enum.map fun p =>
        let connector := if p.1 = sorted.length - 1 then "└──" else "├──"
        "    " ++ connector ++ " " ++ p.2.name ++ " [" ++
          toString p.2.message_count ++ " messages]") ++ [""]

/-- Observable outcome of one program run: stderr lines, stdout lines, and
the process exit status. -/
structure RunResult where
  errLines : List String
  outLines : List String
  exitCode : Nat
  deriving DecidableEq

/-- `main` (main.rs 90-126).  Each fallible stage's outcome is passed in as
data.  On each error arm the source does `eprintln!` followed by `return;`
from a `()`-returning `main`, so the process exit status is 0 on every path;
the model records that status explicitly. -/
def mainRun (prepared : Except String Unit)
    (channelIndexFile guildIndexFile : Option (Except String NameMap))
    (entries : List DirEntry) (ctype : Option ConversationType)
    (minMessages : Nat) (limit : Option Nat) : RunResult :=
  match prepared with
  | Except.error e => ⟨["Error: " ++ e], [], 0⟩
  | Except.ok _ =>
    match load_mappings channelIndexFile guildIndexFile with
    | Except.error e => ⟨["Error loading mappings: " ++ e], [], 0⟩
    | Except.ok (cm, gm) =>
      match process_conversations cm gm entries with
      | Except.error e => ⟨["Error processing conversations: " ++ e], [], 0⟩
      | Except.ok convs =>
        let finalConvs := filter_and_sort_conversations convs ctype minMessages limit
        ⟨[], (finalConvs.map renderConversation).flatten, 0⟩

/-- A run's final conversation list, given the order `guildVals` in which the
guild map's `into_values()` happened to yield its values on that run. -/
def runWithGuildOrder (cm gm : Option NameMap) (entries : List DirEntry)
    (guildVals : List Conversation) (ctype : Option ConversationType)
    (minMessages : Nat) (limit : Option Nat) : Except String (List Conversation) :=
  match scanFold cm gm ⟨[], []⟩ entries with
  | Except.ok st =>
    Except.ok
      (filter_and_sort_conversations (st.conversations ++ guildVals) ctype
        minMessages limit)
  | Except.error e => Except.error e

/-- `guildVals` is an order `HashMap::into_values()` could yield on a run over
`entries`: some permutation of the accumulated guild values. -/
def admissibleGuildOrder (cm gm : Option NameMap) (entries : List DirEntry)
    (guildVals : List Conversation) : Prop :=
  ∃ st, scanFold cm gm ⟨[], []⟩ entries = Except.ok st ∧
    guildVals.Perm (st.guilds.map Prod.snd)

/-- SPEC-SIDE definition, for comparison with the source only.  The spec
claims the lookup key for a non-guild unit is the id with exactly one leading
'c' removed; the source (`trim_start_matches('c')`) removes all of them. -/
def stripOneLeadingC (s : String) : String :=
  match s.data with
  | 'c' :: rest => String.mk rest
  | _ => s

/-- A qualifying candidate (a directory with both files present) one of whose
files is unreadable or malformed — exactly the fatal condition of the scan
loop. -/
def fileFailed : Option (Option α) → Bool
  | some none => true
  | _ => false

/-- `entryFatal e` holds when the scanner must abort on entry `e`: it is a
directory, both `channel.json` and `messages.json` exist, and at least one of
them fails to read or parse. -/
def entryFatal (e : DirEntry) : Bool :=
  e.isDir && e.channelFile.isSome && e.messagesFile.isSome &&
    (fileFailed e.channelFile || fileFailed e.messagesFile)

section SortLemmas

variable {α : Type _} (key : α → Nat)

theorem insertByKeyDesc_perm (a : α) (l : List α) :
    (insertByKeyDesc key a l).Perm (a :: l) := by
  induction l with
  | nil => exact List.Perm.refl _
  | cons b bs ih =>
    simp only [insertByKeyDesc]
    split
    · exact (ih.cons b).trans (List.Perm.swap a b bs)
    · exact List.Perm.refl _

theorem sortByKeyDesc_perm (l : List α) : (sortByKeyDesc key l).Perm l := by
  induction l with
  | nil => exact List.Perm.refl _
  | cons a as ih => exact (insertByKeyDesc_perm key a _).trans (ih.cons a)

theorem insertByKeyDesc_pairwise (a : α) (l : List α)
    (h : l.Pairwise (fun x y => key y ≤ key x)) :
    (insertByKeyDesc key a l).Pairwise (fun x y => key y ≤ key x) := by
  induction l with
  | nil => simp [insertByKeyDesc]
  | cons b bs ih =>
    rcases List.pairwise_cons.mp h with ⟨hb, hbs⟩
    simp only [insertByKeyDesc]
    split
    · rename_i hlt
      refine List.pairwise_cons.mpr ⟨?_, ih hbs⟩
      intro x hx
      rcases List.mem_cons.mp ((insertByKeyDesc_perm key a bs).mem_iff.mp hx) with rfl | hx'
      · exact Nat.le_of_lt hlt
      · exact hb x hx'
    · rename_i hge
      refine List.pairwise_cons.mpr ⟨?_, h⟩
      intro x hx
      rcases List.mem_cons.mp hx with rfl | hx'
      · exact Nat.le_of_not_lt hge
      · exact le_trans (hb x hx') (Nat.le_of_not_lt hge)

theorem sortByKeyDesc_pairwise (l : List α) :
    (sortByKeyDesc key l).Pairwise (fun x y => key y ≤ key x) := by
  induction l with
  | nil => simp [sortByKeyDesc]
  | cons a as ih => exact insertByKeyDesc_pairwise key a _ ih

theorem pairwise_take_drop {R : α → α → Prop} {l : List α}
    (h : l.Pairwise R) (n : Nat) :
    ∀ x ∈ l.take n, ∀ y ∈ l.drop n, R x y := by
  have hsplit : l.take n ++ l.drop n = l := List.take_append_drop n l
  rw [← hsplit] at h
  exact fun x hx y hy => (List.pairwise_append.mp h).2.2 x hx y hy

end SortLemmas

section ScanInvariant

/-- Shape invariant of one entry of the guild map: the value is a `Guild`
whose name was resolved from its key, whose channel list is non-empty, and
whose message count is the sum of its channels' counts. -/
def GuildWF (gm : Option NameMap) (p : String × Conversation) : Prop :=
  ∃ chs, chs ≠ [] ∧
    p.2 = Conversation.Guild ((gm.bind fun m => m.lookup p.1).getD ("Guild " ++ p.1))
      ((chs.map Channel.message_count).sum) chs

/-- Invariant of the scan state: the `conversations` vector holds only
direct/group entries, the guild map's keys are distinct, and every guild map
entry is well-formed. -/
structure ScanInv (gm : Option NameMap) (st : ScanState) : Prop where
  dms : ∀ c ∈ st.conversations, ∃ n mc, c = Conversation.DmOrGc n mc
  keysNodup : (st.guilds.map Prod.fst).Nodup
  wf : ∀ p ∈ st.guilds, GuildWF gm p

theorem upsertGuild_keys (gid gname cname : String) (cnt : Nat)
    (g : List (String × Conversation)) :
    (upsertGuild gid gname cname cnt g).map Prod.fst =
      if gid ∈ g.map Prod.fst then g.map Prod.fst
      else g.map Prod.fst ++ [gid] := by
  induction g with
  | nil => simp [upsertGuild]
  | cons p rest ih =>
    obtain ⟨k, c⟩ := p
    by_cases hk : k = gid
    · subst hk
      cases c <;> simp [upsertGuild]
    · simp only [upsertGuild, if_neg hk, List.map_cons, ih]
      by_cases hg : gid ∈ rest.map Prod.fst
      · simp [hg, Ne.symm hk]
      · simp [hg, Ne.symm hk]

theorem mem_upsertGuild_keys (gid gname cname : String) (cnt : Nat)
    (g : List (String × Conversation)) :
    gid ∈ (upsertGuild gid gname cname cnt g).map Prod.fst := by
  rw [upsertGuild_keys]
  by_cases hg : gid ∈ g.map Prod.fst
  · simp [hg]
  · simp [hg]

theorem upsertGuild_keys_nodup (gid gname cname : String) (cnt : Nat)
    {g : List (String × Conversation)} (h : (g.map Prod.fst).Nodup) :
    ((upsertGuild gid gname cname cnt g).map Prod.fst).Nodup := by
  rw [upsertGuild_keys]
  by_cases hg : gid ∈ g.map Prod.fst
  · simpa [hg]
  · simp only [hg, if_false]
    exact List.Nodup.append h (List.nodup_singleton gid)
      (fun a ha hb => hg ((List.mem_singleton.mp hb) ▸ ha))

theorem upsertGuild_wf (gm : Option NameMap) (gid cname : String) (cnt : Nat)
    {g : List (String × Conversation)} (h : ∀ p ∈ g, GuildWF gm p) :
    ∀ p ∈ upsertGuild gid ((gm.bind fun m => m.lookup gid).getD ("Guild " ++ gid))
        cname cnt g, GuildWF gm p := by
  induction g with
  | nil =>
    intro p hp
    simp only [upsertGuild, List.mem_singleton] at hp
    subst hp
    exact ⟨[⟨cname, cnt⟩], by simp, by simp⟩
  | cons hd rest ih =>
    obtain ⟨k, c⟩ := hd
    intro p hp
    by_cases hk : k = gid
    · subst hk
      obtain ⟨chs, hne, hc⟩ := h (k, c) (List.mem_cons_self _ _)
      simp only at hc
      subst hc
      simp only [upsertGuild, if_pos rfl] at hp
      rcases List.mem_cons.mp hp with rfl | hp'
      · refine ⟨chs ++ [⟨cname, cnt⟩], by simp, ?_⟩
        simp [List.sum_append]
      · exact h p (List.mem_cons_of_mem _ hp')
    · simp only [upsertGuild, if_neg hk] at hp
      rcases List.mem_cons.mp hp with rfl | hp'
      · exact h _ (List.mem_cons_self _ _)
      · exact ih (fun q hq => h q (List.mem_cons_of_mem _ hq)) p hp'

theorem processEntry_inv {cm gm : Option NameMap} {st : ScanState} {e : DirEntry}
    {st' : ScanState} (h : processEntry cm gm st e = Except.ok st')
    (hinv : ScanInv gm st) : ScanInv gm st' := by
  unfold processEntry at h
  split at h
  · split at h
    · split at h
      · exact absurd h (by simp)
      · split at h
        · exact absurd h (by simp)
        · split at h
          · rename_i mf cf channelInfo messages guildInfo hguild
            injection h with h
            subst h
            refine ⟨hinv.dms, ?_, ?_⟩
            · exact upsertGuild_keys_nodup _ _ _ _ hinv.keysNodup
            · exact upsertGuild_wf gm _ _ _ hinv.wf
          · injection h with h
            subst h
            refine ⟨?_, hinv.keysNodup, hinv.wf⟩
            intro c hc
            rcases List.mem_append.mp hc with hc' | hc'
            · exact hinv.dms c hc'
            · rcases List.mem_singleton.mp hc' with rfl
              exact ⟨_, _, rfl⟩
    · injection h with h
      subst h
      exact hinv
  · injection h with h
    subst h
    exact hinv

theorem scanFold_inv {cm gm : Option NameMap} :
    ∀ {st : ScanState} {entries : List DirEntry} {st' : ScanState},
      scanFold cm gm st entries = Except.ok st' → ScanInv gm st → ScanInv gm st'
  | st, [], st', h, hinv => by
    simp only [scanFold] at h
    injection h with h
    subst h
    exact hinv
  | st, e :: es, st', h, hinv => by
    simp only [scanFold] at h
    split at h
    · rename_i stMid hstep
      exact scanFold_inv h (processEntry_inv hstep hinv)
    · exact absurd h (by simp)

theorem scanInv_init (gm : Option NameMap) : ScanInv gm ⟨[], []⟩ :=
  ⟨by simp, by simp, by simp⟩

end ScanInvariant

/-- Claim C1: for every Guild conversation, at every point during aggregation
(i.e. after any prefix of the directory entries has been folded in) and in the
final output, its messageCount equals the sum of messageCount over its
channels; the upsert adds the folded-in channel's count to the guild total in
the same step that appends the Channel entry. -/
theorem C1_guild_count_is_channel_sum (cm gm : Option NameMap)
    (entries : List DirEntry) :
    (∀ out, process_conversations cm gm entries = Except.ok out →
      ∀ c ∈ out, ∀ n mc chs, c = Conversation.Guild n mc chs →
        mc = (chs.map Channel.message_count).sum) ∧
    (∀ l₁ l₂ st, entries = l₁ ++ l₂ →
      scanFold cm gm ⟨[], []⟩ l₁ = Except.ok st →
      ∀ p ∈ st.guilds, ∀ n mc chs, p.2 = Conversation.Guild n mc chs →
        mc = (chs.map Channel.message_count).sum) ∧
    (∀ gid gname cname cnt n mc chs rest,
      upsertGuild gid gname cname cnt
          ((gid, Conversation.Guild n mc chs) :: rest) =
        (gid, Conversation.Guild n (mc + cnt) (chs ++ [⟨cname, cnt⟩])) :: rest) := by
  refine ⟨?_, ?_, ?_⟩
  · intro out hout c hc n mc chs hcg
    unfold process_conversations at hout
    split at hout
    · rename_i st hscan
      injection hout with hout
      subst hout
      have hinv := scanFold_inv hscan (scanInv_init gm)
      rcases List.mem_append.mp hc with hdm | hguild
      · obtain ⟨n', mc', hshape⟩ := hinv.dms c hdm
        rw [hcg] at hshape
        exact absurd hshape (by simp)
      · obtain ⟨p, hp, hpc⟩ := List.mem_map.mp hguild
        obtain ⟨chs0, _, hshape⟩ := hinv.wf p hp
        have heq := hshape.symm.trans (hpc.trans hcg)
        injection heq with h1 h2 h3
        rw [← h2, ← h3]
    · exact absurd hout (by simp)
  · intro l₁ l₂ st _ hscan p hp n mc chs hshape
    have hinv := scanFold_inv hscan (scanInv_init gm)
    obtain ⟨chs0, _, hshape0⟩ := hinv.wf p hp
    have heq := hshape0.symm.trans hshape
    injection heq with h1 h2 h3
    rw [← h2, ← h3]
  · intro gid gname cname cnt n mc chs rest
    simp [upsertGuild]

theorem C1_witness :
    process_conversations none none
        [⟨true, "42", some (some (Json.obj [("guild", Json.obj [("id", Json.str "G")])])),
          some (some [Json.null, Json.null])⟩,
         ⟨true, "43", some (some (Json.obj [("guild", Json.obj [("id", Json.str "G")])])),
          some (some [Json.null])⟩] =
      Except.ok [Conversation.Guild "Guild G" 3 [⟨"42", 2⟩, ⟨"43", 1⟩]] ∧
    (∀ c ∈ [Conversation.Guild "Guild G" 3 [⟨"42", 2⟩, ⟨"43", 1⟩]],
      ∀ n mc chs, c = Conversation.Guild n mc chs →
        mc = (chs.map Channel.message_count).sum) :=
  ⟨rfl,
    (C1_guild_count_is_channel_sum none none
        [⟨true, "42", some (some (Json.obj [("guild", Json.obj [("id", Json.str "G")])])),
          some (some [Json.null, Json.null])⟩,
         ⟨true, "43", some (some (Json.obj [("guild", Json.obj [("id", Json.str "G")])])),
          some (some [Json.null])⟩]).1
      [Conversation.Guild "Guild G" 3 [⟨"42", 2⟩, ⟨"43", 1⟩]] rfl⟩

/-- Claim C10: every Guild conversation returned by `process_conversations`
has a non-empty channels sequence, so the renderer's last-element connector
index (length of the sorted channel list minus one) is a valid index. -/
theorem C10_guild_channels_nonempty (cm gm : Option NameMap)
    (entries : List DirEntry) (out : List Conversation)
    (h : process_conversations cm gm entries = Except.ok out) :
    ∀ n mc chs, Conversation.Guild n mc chs ∈ out →
      chs ≠ [] ∧
        (sortChannelsDesc chs).length - 1 < (sortChannelsDesc chs).length := by
  intro n mc chs hmem
  unfold process_conversations at h
  split at h
  · rename_i st hscan
    injection h with h
    subst h
    have hinv := scanFold_inv hscan (scanInv_init gm)
    have hchs : chs ≠ [] := by
      rcases List.mem_append.mp hmem with hdm | hguild
      · obtain ⟨n', mc', hshape⟩ := hinv.dms _ hdm
        exact absurd hshape (by simp)
      · obtain ⟨p, hp, hpc⟩ := List.mem_map.mp hguild
        obtain ⟨chs0, hne, hshape⟩ := hinv.wf p hp
        have heq := hshape.symm.trans hpc
        injection heq with h1 h2 h3
        exact h3 ▸ hne
    refine ⟨hchs, ?_⟩
    have hlen : (sortChannelsDesc chs).length = chs.length :=
      (sortByKeyDesc_perm Channel.message_count chs).length_eq
    have hpos : 0 < chs.length := List.length_pos.mpr hchs
    omega
  · exact absurd h (by simp)

theorem C10_witness :
    process_conversations none none
        [⟨true, "42", some (some (Json.obj [("guild", Json.obj [("id", Json.str "G")])])),
          some (some [Json.null])⟩] =
      Except.ok [Conversation.Guild "Guild G" 1 [⟨"42", 1⟩]] ∧
    (([⟨"42", 1⟩] : List Channel) ≠ [] ∧
      (sortChannelsDesc [⟨"42", 1⟩]).length - 1 < (sortChannelsDesc [⟨"42", 1⟩]).length) :=
  ⟨rfl,
    C10_guild_channels_nonempty none none
      [⟨true, "42", some (some (Json.obj [("guild", Json.obj [("id", Json.str "G")])])),
        some (some [Json.null])⟩]
      [Conversation.Guild "Guild G" 1 [⟨"42", 1⟩]] rfl
      "Guild G" 1 [⟨"42", 1⟩] (List.mem_singleton.mpr rfl)⟩

/-- Claim C8: a guild reference lacking a usable string id yields the sentinel
guild id "Unknown"; all such units merge into the single synthetic guild keyed
"Unknown" (keys are distinct, and such a unit is never dropped), whose display
name is "Guild Unknown" unless the guild-name mapping has key "Unknown". -/
theorem C8_unknown_guild_sentinel (cm gm : Option NameMap)
    (entries : List DirEntry) (st : ScanState)
    (h : scanFold cm gm ⟨[], []⟩ entries = Except.ok st) :
    (∀ gi : Json, (gi.get "id").bind Json.asStr = none →
      ((gi.get "id").bind Json.asStr).getD "Unknown" = "Unknown") ∧
    (st.guilds.map Prod.fst).Nodup ∧
    (∀ c, ("Unknown", c) ∈ st.guilds →
      ∃ mc chs, chs ≠ [] ∧
        c = Conversation.Guild
          ((gm.bind fun m => m.lookup "Unknown").getD "Guild Unknown") mc chs) ∧
    (∀ st₀ e j ms gi, e.isDir = true → e.channelFile = some (some j) →
      e.messagesFile = some (some ms) → j.get "guild" = some gi →
      (gi.get "id").bind Json.asStr = none →
      ∃ st₁, processEntry cm gm st₀ e = Except.ok st₁ ∧
        "Unknown" ∈ st₁.guilds.map Prod.fst) := by
  have hinv := scanFold_inv h (scanInv_init gm)
  refine ⟨?_, hinv.keysNodup, ?_, ?_⟩
  · intro gi hgi
    rw [hgi]
    rfl
  · intro c hc
    obtain ⟨chs, hne, hshape⟩ := hinv.wf ("Unknown", c) hc
    simp only at hshape
    have hstr : ("Guild " ++ "Unknown" : String) = "Guild Unknown" := rfl
    rw [hstr] at hshape
    exact ⟨_, chs, hne, hshape⟩
  · intro st₀ e j ms gi hd hc hm hg hid
    refine ⟨{ st₀ with
        guilds :=
          upsertGuild "Unknown"
            ((gm.bind fun m => m.lookup "Unknown").getD ("Guild " ++ "Unknown"))
            (((j.get "name").bind Json.asStr).getD e.name) ms.length st₀.guilds },
      ?_, ?_⟩
    · simp [processEntry, hd, hc, hm, hg, hid]
    · exact mem_upsertGuild_keys _ _ _ _ _

theorem C8_witness :
    scanFold none none ⟨[], []⟩
        [⟨true, "77", some (some (Json.obj [("guild", Json.obj [])])),
          some (some [Json.null])⟩] =
      Except.ok ⟨[], [("Unknown", Conversation.Guild "Guild Unknown" 1 [⟨"77", 1⟩])]⟩ ∧
    (∃ mc chs, chs ≠ [] ∧
      (Conversation.Guild "Guild Unknown" 1 [⟨"77", 1⟩] : Conversation) =
        Conversation.Guild "Guild Unknown" mc chs) :=
  ⟨rfl,
    (C8_unknown_guild_sentinel none none
        [⟨true, "77", some (some (Json.obj [("guild", Json.obj [])])),
          some (some [Json.null])⟩]
        ⟨[], [("Unknown", Conversation.Guild "Guild Unknown" 1 [⟨"77", 1⟩])]⟩
        rfl).2.2.1
      (Conversation.Guild "Guild Unknown" 1 [⟨"77", 1⟩])
      (List.mem_singleton.mpr rfl)⟩

theorem processEntry_skip (cm gm : Option NameMap) (st : ScanState) (e : DirEntry)
    (h : e.isDir = false ∨ e.channelFile = none ∨ e.messagesFile = none) :
    processEntry cm gm st e = Except.ok st := by
  unfold processEntry
  rcases h with h | h | h
  · simp [h]
  · rw [h]
    cases e.isDir <;> cases e.messagesFile <;> simp
  · rw [h]
    cases e.isDir <;> cases e.channelFile <;> simp

theorem processEntry_fatal_cases (cm gm : Option NameMap) (st : ScanState)
    (e : DirEntry) :
    (entryFatal e = true ∧ ∃ err, processEntry cm gm st e = Except.error err) ∨
    (entryFatal e = false ∧ ∃ st', processEntry cm gm st e = Except.ok st') := by
  obtain ⟨d, nm, cf, mf⟩ := e
  cases d
  · exact Or.inr ⟨by simp [entryFatal], st, by simp [processEntry]⟩
  · rcases cf with _ | ⟨_ | ci⟩
    · refine Or.inr ⟨by simp [entryFatal], st, ?_⟩
      rcases mf with _ | mf' <;> simp [processEntry]
    · rcases mf with _ | ⟨_ | ms⟩
      · exact Or.inr ⟨by simp [entryFatal], st, by simp [processEntry]⟩
      · exact Or.inl ⟨by simp [entryFatal, fileFailed], _, rfl⟩
      · exact Or.inl ⟨by simp [entryFatal, fileFailed], _, rfl⟩
    · rcases mf with _ | ⟨_ | ms⟩
      · exact Or.inr ⟨by simp [entryFatal], st, by simp [processEntry]⟩
      · exact Or.inl ⟨by simp [entryFatal, fileFailed], _, rfl⟩
      · refine Or.inr ⟨by simp [entryFatal, fileFailed], ?_⟩
        cases hgi : ci.get "guild" <;> simp [processEntry, hgi]

theorem scanFold_error_iff (cm gm : Option NameMap) :
    ∀ (st : ScanState) (entries : List DirEntry),
      (∃ err, scanFold cm gm st entries = Except.error err) ↔
        ∃ e ∈ entries, entryFatal e = true := by
  intro st entries
  induction entries generalizing st with
  | nil => simp [scanFold]
  | cons e es ih =>
    rcases processEntry_fatal_cases cm gm st e with ⟨hf, err, herr⟩ | ⟨hf, st', hok⟩
    · constructor
      · intro _
        exact ⟨e, List.mem_cons_self _ _, hf⟩
      · intro _
        exact ⟨err, by simp [scanFold, herr]⟩
    · constructor
      · intro hrun
        obtain ⟨err, hrun⟩ := hrun
        simp only [scanFold, hok] at hrun
        obtain ⟨e', he', hf'⟩ := (ih st').mp ⟨err, hrun⟩
        exact ⟨e', List.mem_cons_of_mem _ he', hf'⟩
      · intro hex
        obtain ⟨e', he', hf'⟩ := hex
        rcases List.mem_cons.mp he' with rfl | he''
        · rw [hf] at hf'
          exact absurd hf' (by simp)
        · obtain ⟨err, herr⟩ := (ih st').mpr ⟨e', he'', hf'⟩
          exact ⟨err, by simp [scanFold, hok, herr]⟩

/-- Claim C7: a conversation-unit subdirectory missing channel.json or
messages.json (or a non-directory listing entry) is silently skipped and
contributes nothing; the scan errors if and only if some entry is a directory
with both files present and at least one of them unreadable or malformed. -/
theorem C7_skip_vs_fatal (cm gm : Option NameMap) :
    (∀ st e es,
      (e.isDir = false ∨ e.channelFile = none ∨ e.messagesFile = none) →
      scanFold cm gm st (e :: es) = scanFold cm gm st es) ∧
    (∀ st entries,
      (∃ err, scanFold cm gm st entries = Except.error err) ↔
        ∃ e ∈ entries, e.isDir = true ∧ e.channelFile.isSome = true ∧
          e.messagesFile.isSome = true ∧
          (fileFailed e.channelFile = true ∨ fileFailed e.messagesFile = true)) := by
  constructor
  · intro st e es h
    simp [scanFold, processEntry_skip cm gm st e h]
  · intro st entries
    rw [scanFold_error_iff cm gm st entries]
    constructor
    · intro ⟨e, he, hf⟩
      refine ⟨e, he, ?_⟩
      have hf' := (by simpa [entryFatal, Bool.and_eq_true, Bool.or_eq_true] using hf :
        ((e.isDir = true ∧ e.channelFile.isSome = true) ∧
          e.messagesFile.isSome = true) ∧
          (fileFailed e.channelFile = true ∨ fileFailed e.messagesFile = true))
      exact ⟨hf'.1.1.1, hf'.1.1.2, hf'.1.2, hf'.2⟩
    · intro ⟨e, he, hf⟩
      refine ⟨e, he, ?_⟩
      simp only [entryFatal, Bool.and_eq_true, Bool.or_eq_true]
      exact ⟨⟨⟨hf.1, hf.2.1⟩, hf.2.2.1⟩, hf.2.2.2⟩

theorem C7_witness :
    scanFold none none ⟨[], []⟩ [⟨false, "x", none, none⟩] =
      scanFold none none ⟨[], []⟩ [] ∧
    (∃ err, scanFold none none ⟨[], []⟩
        [⟨true, "z", some none, some (some [])⟩] = Except.error err) :=
  ⟨(C7_skip_vs_fatal none none).1 ⟨[], []⟩ ⟨false, "x", none, none⟩ []
      (Or.inl rfl),
    ((C7_skip_vs_fatal none none).2 ⟨[], []⟩
        [⟨true, "z", some none, some (some [])⟩]).mpr
      ⟨⟨true, "z", some none, some (some [])⟩, List.mem_singleton.mpr rfl,
        rfl, rfl, rfl, Or.inl rfl⟩⟩

/-- Claim C5: `filter_and_sort_conversations` returns exactly the input
conversations passing the min-count and type filters, sorted descending by
message count; with `limit = N` the result has at most `N` entries and they
are the `N` highest by message count among the filtered set. -/
theorem C5_filter_sort_limit (convs : List Conversation)
    (ctype : Option ConversationType) (minMessages : Nat) (limit : Option Nat) :
    (∀ c ∈ filter_and_sort_conversations convs ctype minMessages limit,
      c ∈ convs ∧ matchesFilter ctype minMessages c = true) ∧
    (filter_and_sort_conversations convs ctype minMessages limit).Pairwise
      (fun a b => b.message_count ≤ a.message_count) ∧
    (limit = none →
      (filter_and_sort_conversations convs ctype minMessages limit).Perm
        (convs.filter (matchesFilter ctype minMessages))) ∧
    (∀ N, limit = some N →
      (filter_and_sort_conversations convs ctype minMessages limit).length ≤ N ∧
      ∃ rest,
        (filter_and_sort_conversations convs ctype minMessages limit ++ rest).Perm
            (convs.filter (matchesFilter ctype minMessages)) ∧
          ∀ x ∈ filter_and_sort_conversations convs ctype minMessages limit,
            ∀ y ∈ rest, y.message_count ≤ x.message_count) := by
  have hperm :
      (sortByKeyDesc Conversation.message_count
          (convs.filter (matchesFilter ctype minMessages))).Perm
        (convs.filter (matchesFilter ctype minMessages)) :=
    sortByKeyDesc_perm _ _
  have hpw :=
    sortByKeyDesc_pairwise Conversation.message_count
      (convs.filter (matchesFilter ctype minMessages))
  cases limit with
  | none =>
    refine ⟨?_, hpw, fun _ => hperm, ?_⟩
    · intro c hc
      have hcF := hperm.mem_iff.mp hc
      exact List.mem_filter.mp hcF
    · intro N hN
      exact absurd hN (by simp)
  | some N =>
    refine ⟨?_, ?_, ?_, ?_⟩
    · intro c hc
      have hcS :
          c ∈ sortByKeyDesc Conversation.message_count
            (convs.filter (matchesFilter ctype minMessages)) :=
        (List.take_sublist N _).subset hc
      exact List.mem_filter.mp (hperm.mem_iff.mp hcS)
    · exact hpw.sublist (List.take_sublist N _)
    · intro hN
      exact absurd hN (by simp)
    · intro N' hN'
      injection hN' with hN'
      subst hN'
      refine ⟨List.length_take_le _ _, ?_⟩
      refine ⟨(sortByKeyDesc Conversation.message_count
          (convs.filter (matchesFilter ctype minMessages))).drop N, ?_, ?_⟩
      · have hsplit :
            filter_and_sort_conversations convs ctype minMessages (some N) ++
              (sortByKeyDesc Conversation.message_count
                (convs.filter (matchesFilter ctype minMessages))).drop N =
              sortByKeyDesc Conversation.message_count
                (convs.filter (matchesFilter ctype minMessages)) :=
          List.take_append_drop N _
        rw [hsplit]
        exact hperm
      · exact fun x hx y hy => pairwise_take_drop hpw N x hx y hy

theorem C5_witness :
    (filter_and_sort_conversations
        [Conversation.DmOrGc "a" 3, Conversation.DmOrGc "b" 7,
          Conversation.DmOrGc "d" 0]
        none 1 (some 1)).length ≤ 1 ∧
    (filter_and_sort_conversations
        [Conversation.DmOrGc "a" 3, Conversation.DmOrGc "b" 7,
          Conversation.DmOrGc "d" 0]
        none 1 none).Perm
      (List.filter (matchesFilter none 1)
        [Conversation.DmOrGc "a" 3, Conversation.DmOrGc "b" 7,
          Conversation.DmOrGc "d" 0]) :=
  ⟨((C5_filter_sort_limit
      [Conversation.DmOrGc "a" 3, Conversation.DmOrGc "b" 7,
        Conversation.DmOrGc "d" 0]
      none 1 (some 1)).2.2.2 1 rfl).1,
    (C5_filter_sort_limit
      [Conversation.DmOrGc "a" 3, Conversation.DmOrGc "b" 7,
        Conversation.DmOrGc "d" 0]
      none 1 none).2.2.1 rfl⟩

/-- Claim C9: applying the min-count and type filters before the descending
sort yields the same final collection, up to order, as applying them after
the sort: the two orders of operations produce permutations of each other. -/
theorem C9_filter_sort_commute (convs : List Conversation)
    (ctype : Option ConversationType) (minMessages : Nat) :
    (sortByKeyDesc Conversation.message_count
        (convs.filter (matchesFilter ctype minMessages))).Perm
      ((sortByKeyDesc Conversation.message_count convs).filter
        (matchesFilter ctype minMessages)) := by
  have h1 :=
    sortByKeyDesc_perm Conversation.message_count
      (convs.filter (matchesFilter ctype minMessages))
  have h2 :=
    (sortByKeyDesc_perm Conversation.message_count convs).filter
      (matchesFilter ctype minMessages)
  exact h1.trans h2.symm

/-- Claim C2 counterexample: for unit id "cc123" with a mapping keyed by the
single-stripped id "c123", the single-character strip claimed by the spec
would hit the mapping and produce "Hit", but the code's
`trim_start_matches('c')` strips both leading 'c's, misses, and falls back to
"Conversation cc123". -/
theorem C2_counterexample :
    process_conversations (some [("c123", "Hit")]) none
        [⟨true, "cc123", some (some (Json.obj [])), some (some [])⟩] =
      Except.ok [Conversation.DmOrGc "Conversation cc123" 0] ∧
    stripOneLeadingC "cc123" = "c123" ∧
    ((some [("c123", "Hit")] : Option NameMap).bind fun m =>
        m.lookup (stripOneLeadingC "cc123")).getD "Conversation cc123" = "Hit" ∧
    ("Conversation cc123" : String) ≠ "Hit" := by
  refine ⟨rfl, by decide, by decide, by decide⟩

/-- Claim C2 (amended): for every non-guild unit, the lookup key is the unit
id with ALL leading 'c' characters stripped (Rust `trim_start_matches('c')`),
and on a mapping miss the display name is "Conversation {unitId}" built from
the unstripped unit id. -/
theorem C2_amended_strip_all_leading (cm gm : Option NameMap) (st : ScanState)
    (e : DirEntry) (j : Json) (ms : List Json)
    (hd : e.isDir = true) (hc : e.channelFile = some (some j))
    (hm : e.messagesFile = some (some ms)) (hg : j.get "guild" = none) :
    processEntry cm gm st e =
      Except.ok
        { st with
          conversations :=
            st.conversations ++
              [Conversation.DmOrGc
                ((cm.bind fun m =>
                    m.lookup (String.mk (e.name.data.dropWhile (· == 'c')))).getD
                  ("Conversation " ++ e.name)) ms.length] } := by
  simp [processEntry, hd, hc, hm, hg]

theorem C2_witness :
    processEntry (some [("c123", "Hit")]) none ⟨[], []⟩
        ⟨true, "cc123", some (some (Json.obj [])), some (some [])⟩ =
      Except.ok ⟨[Conversation.DmOrGc "Conversation cc123" 0], []⟩ :=
  C2_amended_strip_all_leading (some [("c123", "Hit")]) none ⟨[], []⟩
    ⟨true, "cc123", some (some (Json.obj [])), some (some [])⟩
    (Json.obj []) [] rfl rfl rfl rfl

/-- Concrete scan input for the reproducibility question: two guild channel
units belonging to two different guilds, with equal message counts. -/
def cexEntryA : DirEntry :=
  ⟨true, "a1", some (some (Json.obj [("guild", Json.obj [("id", Json.str "A")])])),
    some (some [Json.null])⟩

def cexEntryB : DirEntry :=
  ⟨true, "b1", some (some (Json.obj [("guild", Json.obj [("id", Json.str "B")])])),
    some (some [Json.null])⟩

def cexGuildA : Conversation := Conversation.Guild "Guild A" 1 [⟨"a1", 1⟩]

def cexGuildB : Conversation := Conversation.Guild "Guild B" 1 [⟨"b1", 1⟩]

/-- Claim C3 counterexample: on identical input, two runs whose guild map
yields its values in different (both admissible) orders produce different
final conversation lists — the tie between the two guilds (1 message each) is
broken by hash-map iteration order, which is not fixed across runs. -/
theorem C3_counterexample :
    admissibleGuildOrder none none [cexEntryA, cexEntryB]
        [cexGuildA, cexGuildB] ∧
    admissibleGuildOrder none none [cexEntryA, cexEntryB]
        [cexGuildB, cexGuildA] ∧
    runWithGuildOrder none none [cexEntryA, cexEntryB] [cexGuildA, cexGuildB]
        none 1 none = Except.ok [cexGuildA, cexGuildB] ∧
    runWithGuildOrder none none [cexEntryA, cexEntryB] [cexGuildB, cexGuildA]
        none 1 none = Except.ok [cexGuildB, cexGuildA] ∧
    ([cexGuildA, cexGuildB] : List Conversation) ≠ [cexGuildB, cexGuildA] := by
  refine ⟨⟨⟨[], [("A", cexGuildA), ("B", cexGuildB)]⟩, rfl, List.Perm.refl _⟩,
    ⟨⟨[], [("A", cexGuildA), ("B", cexGuildB)]⟩, rfl,
      List.Perm.swap cexGuildA cexGuildB []⟩, rfl, rfl, ?_⟩
  decide

/-- Claim C3 (amended): two runs on identical input produce the same multiset
of conversations — any two admissible guild-map value orders give final lists
(without a limit) that are permutations of each other — but the exact order
among conversations tied on messageCount depends on the hash map's
value-iteration order and is not reproducible across runs. -/
theorem C3_amended_output_perm (cm gm : Option NameMap) (entries : List DirEntry)
    (g1 g2 : List Conversation) (ctype : Option ConversationType)
    (minMessages : Nat) (out1 out2 : List Conversation)
    (h1 : admissibleGuildOrder cm gm entries g1)
    (h2 : admissibleGuildOrder cm gm entries g2)
    (r1 : runWithGuildOrder cm gm entries g1 ctype minMessages none =
      Except.ok out1)
    (r2 : runWithGuildOrder cm gm entries g2 ctype minMessages none =
      Except.ok out2) :
    out1.Perm out2 := by
  obtain ⟨st1, hs1, hp1⟩ := h1
  obtain ⟨st2, hs2, hp2⟩ := h2
  rw [hs1] at hs2
  injection hs2 with hst
  subst hst
  unfold runWithGuildOrder at r1 r2
  rw [hs1] at r1 r2
  injection r1 with r1
  injection r2 with r2
  subst r1
  subst r2
  have hg : g1.Perm g2 := hp1.trans hp2.symm
  have happ : (st1.conversations ++ g1).Perm (st1.conversations ++ g2) :=
    hg.append_left st1.conversations
  have hfil := happ.filter (matchesFilter ctype minMessages)
  exact ((sortByKeyDesc_perm _ _).trans hfil).trans (sortByKeyDesc_perm _ _).symm

theorem C3_witness :
    ([cexGuildA, cexGuildB] : List Conversation).Perm [cexGuildB, cexGuildA] :=
  C3_amended_output_perm none none [cexEntryA, cexEntryB]
    [cexGuildA, cexGuildB] [cexGuildB, cexGuildA] none 1
    [cexGuildA, cexGuildB] [cexGuildB, cexGuildA]
    ⟨⟨[], [("A", cexGuildA), ("B", cexGuildB)]⟩, rfl, List.Perm.refl _⟩
    ⟨⟨[], [("A", cexGuildA), ("B", cexGuildB)]⟩, rfl,
      List.Perm.swap cexGuildA cexGuildB []⟩
    rfl rfl

/-- Claim C4: on a fatal error `main` prints the error and prints no part of
the report — but, because `fn main()` returns `()` after the `eprintln!` and
`return`, the process exit status is 0 on the error paths, not nonzero as
specified; the success path prints the report and exits 0 as specified. -/
theorem C4_exit_behavior :
    (∀ (e : String) cf gf (entries : List DirEntry) ctype (mm : Nat) lim,
      mainRun (Except.error e) cf gf entries ctype mm lim =
        ⟨["Error: " ++ e], [], 0⟩) ∧
    (mainRun (Except.error "Invalid input path: ./missing") none none [] none 1
        none).errLines ≠ [] ∧
    (mainRun (Except.error "Invalid input path: ./missing") none none [] none 1
        none).outLines = [] ∧
    (mainRun (Except.error "Invalid input path: ./missing") none none [] none 1
        none).exitCode = 0 ∧
    mainRun (Except.ok ()) none none
        [⟨true, "c9", some (some (Json.obj [])), some (some [Json.null])⟩]
        none 1 none =
      ⟨[], ["Conversation c9 [1 messages]"], 0⟩ := by
  refine ⟨fun e cf gf entries ctype mm lim => rfl, ?_, rfl, rfl, rfl⟩
  simp [mainRun]

/-- Claim C6: `load_mapping` returns `Some mapping` when the index file exists
and parses, `None` when the file does not exist, and propagates a hard error
(never returning `ok none`) when the file exists but fails to parse. -/
theorem C6_load_mapping_contract :
    (∀ f : Option (Except String NameMap), f = none →
      load_mapping f = Except.ok none) ∧
    (∀ (f : Option (Except String NameMap)) (m : NameMap),
      f = some (Except.ok m) → load_mapping f = Except.ok (some m)) ∧
    (∀ (f : Option (Except String NameMap)) (e : String),
      f = some (Except.error e) →
      load_mapping f = Except.error e ∧ load_mapping f ≠ Except.ok none) := by
  refine ⟨?_, ?_, ?_⟩
  · intro f hf
    subst hf
    rfl
  · intro f m hf
    subst hf
    rfl
  · intro f e hf
    subst hf
    exact ⟨rfl, by simp [load_mapping, Except.map]⟩

theorem C6_witness :
    load_mapping none = Except.ok none ∧
    load_mapping (some (Except.ok [("1", "A")])) = Except.ok (some [("1", "A")]) ∧
    load_mapping (some (Except.error "bad")) = Except.error "bad" ∧
    load_mapping (some (Except.error "bad")) ≠ Except.ok none :=
  ⟨C6_load_mapping_contract.1 none rfl,
    C6_load_mapping_contract.2.1 _ [("1", "A")] rfl,
    (C6_load_mapping_contract.2.2 _ "bad" rfl).1,
    (C6_load_mapping_contract.2.2 _ "bad" rfl).2⟩

end DGCount
